import Mathlib

/-!
Verification of `actions/crdjsonschema/openapi2jsonschema.py` (fluxcd/pkg).

The script loads Kubernetes CRD YAML documents, extracts one `Schema` record
per CRD version, rewrites each schema body with two recursive tree passes
(`additional_properties`, `replace_int_or_string`), writes one JSON file per
schema, and finally writes a consolidated `_definitions.json` and an
aggregate `all.json`.

The embedding below models parsed YAML/JSON documents as the inductive
`Json`.  Python dicts become association lists in insertion order (Python
dicts are ordered and have unique keys; the association-list model is a
superset, and every lookup is first-occurrence).  Unhandled Python
exceptions (KeyError, TypeError, NameError) are modelled as `Except Unit`
errors.
-/

/-- A parsed YAML/JSON value.  `obj` keeps entries in insertion order,
mirroring Python dict ordering. -/
inductive Json where
  | null : Json
  | bool (b : Bool) : Json
  | num (n : Int) : Json
  | str (s : String) : Json
  | arr (xs : List Json) : Json
  | obj (kvs : List (String × Json)) : Json
  deriving Repr

namespace Json

mutual

/-- Structural equality of `Json` values (Python `==` on parsed YAML). -/
def beqJ : Json → Json → Bool
  | .null, .null => true
  | .bool a, .bool b => a == b
  | .num a, .num b => a == b
  | .str a, .str b => a == b
  | .arr xs, .arr ys => beqArr xs ys
  | .obj xs, .obj ys => beqObj xs ys
  | _, _ => false

def beqArr : List Json → List Json → Bool
  | [], [] => true
  | x :: xs, y :: ys => beqJ x y && beqArr xs ys
  | _, _ => false

def beqObj : List (String × Json) → List (String × Json) → Bool
  | [], [] => true
  | (k, v) :: xs, (k', v') :: ys => k == k' && beqJ v v' && beqObj xs ys
  | _, _ => false

end

mutual

theorem beqJ_iff : ∀ a b : Json, beqJ a b = true ↔ a = b
  | .null, b => by cases b <;> simp [beqJ]
  | .bool a, b => by cases b <;> simp [beqJ]
  | .num a, b => by cases b <;> simp [beqJ]
  | .str a, b => by cases b <;> simp [beqJ]
  | .arr xs, b => by cases b <;> simp [beqJ, beqArr_iff xs]
  | .obj xs, b => by cases b <;> simp [beqJ, beqObj_iff xs]

theorem beqArr_iff : ∀ xs ys : List Json, beqArr xs ys = true ↔ xs = ys
  | [], ys => by cases ys <;> simp [beqArr]
  | x :: xs, ys => by
      cases ys with
      | nil => simp [beqArr]
      | cons y ys => simp [beqArr, beqJ_iff x y, beqArr_iff xs ys]

theorem beqObj_iff : ∀ xs ys : List (String × Json), beqObj xs ys = true ↔ xs = ys
  | [], ys => by cases ys <;> simp [beqObj]
  | (k, v) :: xs, ys => by
      cases ys with
      | nil => simp [beqObj]
      | cons y ys =>
          obtain ⟨k', v'⟩ := y
          simp [beqObj, beqJ_iff v v', beqObj_iff xs ys, and_assoc]

end

instance : DecidableEq Json :=
  fun a b => decidable_of_iff (beqJ a b = true) (beqJ_iff a b)

/-- First-occurrence lookup in an object's entry list (Python `d[k]` /
`k in d` on a dict, which has unique keys). -/
def lookupJ (s : String) : List (String × Json) → Option Json
  | [] => none
  | (k, v) :: rest => if k = s then some v else lookupJ s rest

/-- Python `k in d` for a dict. -/
def keyMem (s : String) (kvs : List (String × Json)) : Bool :=
  (lookupJ s kvs).isSome

/-- Python `d[k] = v`: replace the first binding of `k` in place, or append
a new binding at the end (dicts preserve insertion order). -/
def setKey : List (String × Json) → String → Json → List (String × Json)
  | [], k, v => [(k, v)]
  | (k', v') :: rest, k, v =>
      if k' = k then (k, v) :: rest else (k', v') :: setKey rest k v

end Json

open Json

/-! ## The close-by-default pass (`additional_properties`)

Python source (lines 37–53): iterates over `data.items()`; for each value
`v` that is a dict, if `"properties" in v` and `"additionalProperties"
not in v` it first executes `v["additionalProperties"] = False` (which, the
key being absent, appends the entry at the end of `v`'s insertion order)
and then recurses with `additional_properties(v)`.  The recursion maps the
entries of `v` pointwise and leaves the appended boolean entry unchanged,
so the embedding appends the injected entry after mapping — extensionally
the same list.  Values that are not dicts (including lists) are passed
through unchanged, and a non-dict argument raises `AttributeError` on
`.items()`, which is caught and returns the argument unchanged. -/

/-- The injection condition checked on a dict value `v`:
`"properties" in v and "additionalProperties" not in v`. -/
def apCond (inner : List (String × Json)) : Bool :=
  keyMem "properties" inner && !keyMem "additionalProperties" inner

mutual

/-- `additional_properties(data)` from the source: processes the entries of
a dict; any non-dict argument is returned unchanged (`except
AttributeError`). -/
def additional_properties : Json → Json
  | .obj kvs => .obj (apList kvs)
  | v => v

/-- One step of the `for k, v in data.items()` loop of
`additional_properties`. -/
def apList : List (String × Json) → List (String × Json)
  | [] => []
  | (k, v) :: rest => (k, apValue v) :: apList rest

/-- The treatment of a single dict value inside `additional_properties`:
dicts get the conditional injection followed by the recursive rewrite;
everything else (scalars and lists) passes through unchanged. -/
def apValue : Json → Json
  | .obj inner =>
      if apCond inner then
        .obj (apList inner ++ [("additionalProperties", .bool false)])
      else
        .obj (apList inner)
  | v => v

end

/-! ## The int-or-string widening pass (`replace_int_or_string`)

Python source (lines 56–75): iterates over `data.items()`.  A dict value
whose `"format"` entry equals the string `"int-or-string"` is replaced
wholesale by the fixed `oneOf` node; any other dict value is recursed into;
a list value is rebuilt by applying the top-level function to each element
(so dict elements are recursed into but never themselves replaced, and list
elements that are themselves lists hit the `AttributeError` fallback and
come back unchanged); all other values pass through. -/

/-- The fixed replacement node
`{"oneOf": [{"type": "string"}, {"type": "integer"}]}`. -/
def intOrStringSubst : Json :=
  .obj [("oneOf", .arr [.obj [("type", .str "string")],
                        .obj [("type", .str "integer")]])]

/-- The test `"format" in v and v["format"] == "int-or-string"`: true exactly
when the `"format"` entry exists and is that literal string. -/
def fmtIOS (inner : List (String × Json)) : Bool :=
  match lookupJ "format" inner with
  | some (.str s) => s == "int-or-string"
  | _ => false

mutual

/-- `replace_int_or_string(data)` from the source: processes the entries of
a dict; a non-dict argument is returned unchanged (`except
AttributeError`). -/
def replace_int_or_string : Json → Json
  | .obj kvs => .obj (riosList kvs)
  | v => v

/-- One step of the `for k, v in data.items()` loop of
`replace_int_or_string`. -/
def riosList : List (String × Json) → List (String × Json)
  | [] => []
  | (k, v) :: rest => (k, riosValue v) :: riosList rest

/-- The treatment of a single dict value inside `replace_int_or_string`. -/
def riosValue : Json → Json
  | .obj inner =>
      if fmtIOS inner then intOrStringSubst else .obj (riosList inner)
  | .arr xs => .arr (riosMap xs)
  | v => v

/-- The `for x in v: new_v.append(replace_int_or_string(x))` loop for list
values. -/
def riosMap : List Json → List Json
  | [] => []
  | x :: xs => replace_int_or_string x :: riosMap xs

end

/-! ## The nullable-optional pass (`allow_null_optional_fields`)

Python source (lines 78–97).  The body recurses into dict values (passing
`(v, data, parent, k)`) and into elements of list values (passing
`(x, v, parent, k)`), so a frame's `grand_parent` is its caller's `parent`.
For a string value it computes `is_non_null_type = k == "type" and
v != "null"` (line 90), then evaluates `has_required_fields = grand_parent
and "required" in grand_parent` (line 91) — which raises `TypeError` when
`grand_parent` is truthy but supports no membership test (a true bool or a
nonzero number); `None` and other falsy values short-circuit, and dicts,
lists and strings evaluate the membership without error, its boolean result
being dead — and finally evaluates `if is_non_null_type and not
has_required_field:` (line 92), where `has_required_field` is an undefined
name (line 91 spells it `has_required_fields`), so whenever
`is_non_null_type` is true a `NameError` is raised.  Neither error is an
`AttributeError`, so no `except` clause catches them; both are modelled as
`.error ()`.  A non-dict argument (including a list nested directly inside
another list) raises `AttributeError` on `.items()` and is returned
unchanged.  The `key` parameter is never read. -/

/-- Python truthiness of a parsed YAML value (`None` maps to `null`). -/
def jsonTruthy : Json → Bool
  | .null => false
  | .bool b => b
  | .num n => n != 0
  | .str s => s != ""
  | .arr xs => !xs.isEmpty
  | .obj kvs => !kvs.isEmpty

/-- Does evaluating line 91, `grand_parent and "required" in grand_parent`,
raise a `TypeError`?  Exactly when `grand_parent` is truthy and is neither
a mapping, a sequence nor a string: a true bool or a nonzero number.
(Falsy values short-circuit; container values run the membership test
without error, and its result feeds only the dead `has_required_fields`
binding.) -/
def line91Raises : Option Json → Bool
  | some g => jsonTruthy g && (match g with
      | .bool _ => true
      | .num _ => true
      | _ => false)
  | none => false

mutual

/-- `allow_null_optional_fields(data, parent, grand_parent, key)`. -/
def allow_null_optional_fields (data : Json) (parent gp : Option Json)
    (_key : Option String) : Except Unit Json :=
  match data with
  | .obj kvs => do
      let kvs' ← anofList kvs (.obj kvs) parent gp
      .ok (.obj kvs')
  | v => .ok v

/-- One step of the `for k, v in data.items()` loop; `data` is the dict
being iterated (passed as the children's `parent`), `parent` is its parent
(passed as the children's `grand_parent`), and `gp` is the current frame's
own `grand_parent`, consulted by line 91 in the string branch. -/
def anofList (entries : List (String × Json)) (data : Json)
    (parent gp : Option Json) : Except Unit (List (String × Json)) :=
  match entries with
  | [] => .ok []
  | (k, v) :: rest => do
      let new_v ← anofValue k v data parent gp
      let rest' ← anofList rest data parent gp
      .ok ((k, new_v) :: rest')

/-- The treatment of a single value in the loop body.  In the string branch
line 91 is evaluated first (a possible `TypeError` against the current
frame's `grand_parent`), then line 92's `NameError` fires whenever
`is_non_null_type` holds. -/
def anofValue (k : String) (v : Json) (data : Json) (parent gp : Option Json) :
    Except Unit Json :=
  match v with
  | .obj inner => allow_null_optional_fields (.obj inner) (some data) parent (some k)
  | .arr xs => do
      let xs' ← anofElems xs (.arr xs) parent k
      .ok (.arr xs')
  | .str s =>
      if line91Raises gp then .error ()
      else if k == "type" && s != "null" then .error ()
      else .ok (.str s)
  | v => .ok v

/-- The `for x in v` loop over a list value: each element is processed with
`parent` set to the list and `grand_parent` to the dict's parent. -/
def anofElems (elems : List Json) (lst : Json) (parent : Option Json) (k : String) :
    Except Unit (List Json) :=
  match elems with
  | [] => .ok []
  | x :: xs => do
      let x' ← allow_null_optional_fields x (some lst) parent (some k)
      let xs' ← anofElems xs lst parent k
      .ok (x' :: xs')

end

/-! ## `append_no_duplicates` (lines 100–108)

`if key not in obj: obj[key] = []` followed by
`if value not in obj[key]: obj[key].append(value)`, operating on a dict
`obj`.  If the existing value under `key` is not a list, the subsequent
`in`/`.append` raise `TypeError`/`AttributeError` for the value shapes that
occur here, modelled as `.error ()` (the corner where a string value makes
`value not in obj[key]` a substring test is outside the modelled scope). -/

def append_no_duplicates (obj : List (String × Json)) (key : String) (value : Json) :
    Except Unit (List (String × Json)) :=
  match lookupJ key obj with
  | none => .ok (setKey obj key (.arr [value]))
  | some (.arr xs) =>
      if value ∈ xs then .ok obj else .ok (setKey obj key (.arr (xs ++ [value])))
  | some _ => .error ()

/-! ## CRD extraction (lines 136–158) -/

/-- One extracted CRD-version record (the `Schema` dataclass).  The script
stores whatever YAML values it finds in `kind`/`group`/`version`; documents
where these are not strings are outside the modelled scope (they would
break later at `schema.group.split`), so extraction requires strings. -/
structure Schema where
  kind : String
  group : String
  version : String
  definition : Json
  deriving DecidableEq, Repr

/-- Python `kvs[k]` on a dict: `KeyError` when the key is missing. -/
def getItemE (kvs : List (String × Json)) (k : String) : Except Unit Json :=
  match lookupJ k kvs with
  | some v => .ok v
  | none => .error ()

inductive FilePart where
  | lit (s : String)
  | kindField
  | groupField
  | versionField
  deriving DecidableEq, Repr

/-- Render a template against the three substitution values
(`str.format` restricted to the recognized placeholders). -/
def renderTemplate : List FilePart → String → String → String → String
  | [], _, _, _ => ""
  | .lit t :: rest, k, g, v => t ++ renderTemplate rest k g v
  | .kindField :: rest, k, g, v => k ++ renderTemplate rest k g v
  | .groupField :: rest, k, g, v => g ++ renderTemplate rest k g v
  | .versionField :: rest, k, g, v => v ++ renderTemplate rest k g v

/-- The default template `"{kind}-{group}-{version}"`. -/
def defaultFilenameFormat : List FilePart :=
  [.kindField, .lit "-", .groupField, .lit "-", .versionField]

/-- `group.split(".")[0]` (Python `split` always yields a nonempty list, so
the subscript is total). -/
def firstDotSegment (g : String) : String :=
  (g.splitOn ".").headD ""

/-- The filename computed in the write loop (lines 164–169):
`filename_format.format(...).lower() + ".json"`. -/
def filenameInLoop (tpl : List FilePart) (s : Schema) : String :=
  (renderTemplate tpl s.kind (firstDotSegment s.group) s.version).toLower ++ ".json"

/-- `os.path.basename` on POSIX paths. -/
def basename (s : String) : String :=
  (s.splitOn "/").getLastD ""

/-- The schema rewrite applied by `write_schema_file` (lines 112–113):
close-by-default first, then int-or-string widening. -/
def write_transform (j : Json) : Json :=
  replace_int_or_string (additional_properties j)

/-- The name under which `write_schema_file` actually writes (line 116). -/
def writtenFilename (tpl : List FilePart) (s : Schema) : String :=
  basename (filenameInLoop tpl s)

/-- The per-schema files produced by the write loop (lines 164–170), in
order: each schema is written, transformed, under its derived name. -/
def perSchemaFiles (tpl : List FilePart) (schemas : List Schema) :
    List (String × Json) :=
  schemas.map (fun s => (writtenFilename tpl s, write_transform s.definition))

/-! ## The consolidated definitions file (lines 175–184) and `all.json` -/

/-- Require a dict (`TypeError` on subscripting anything else). -/
def getObjE (j : Json) : Except Unit (List (String × Json)) :=
  match j with
  | .obj kvs => .ok kvs
  | _ => .error ()

/-- The per-schema mutation in the `_definitions.json` loop (lines 179–181):
`append_no_duplicates(schema.definition['properties']['apiVersion'], 'enum',
f'{group}/{version}')`, then the same for `kind`, mutating the nested dicts
in place (modelled by rebuilding with `setKey`, which preserves entry
positions exactly as in-place mutation does). -/
def enrichDefinition (s : Schema) : Except Unit Json := do
  let defKvs ← getObjE s.definition
  let propsKvs ← getObjE (← getItemE defKvs "properties")
  let apiv ← getObjE (← getItemE propsKvs "apiVersion")
  let apiv' ← append_no_duplicates apiv "enum" (.str (s.group ++ "/" ++ s.version))
  let kindv ← getObjE (← getItemE propsKvs "kind")
  let kindv' ← append_no_duplicates kindv "enum" (.str s.kind)
  let props' := setKey (setKey propsKvs "apiVersion" (.obj apiv')) "kind" (.obj kindv')
  .ok (.obj (setKey defKvs "properties" (.obj props')))

/-- The key `f'{schema.group}.{schema.version}.{schema.kind}'`. -/
def defsKey (s : Schema) : String :=
  s.group ++ "." ++ s.version ++ "." ++ s.kind

/-- The `definitions` dict accumulated over the schemas in order
(line 182; dict assignment overwrites in place or appends at the end). -/
def buildDefinitions (schemas : List Schema) : Except Unit (List (String × Json)) :=
  schemas.foldlM (fun defs s => do .ok (setKey defs (defsKey s) (← enrichDefinition s))) []

/-- The document written to `_definitions.json` (line 184):
`{"definitions": definitions}`. -/
def definitionsFileJson (schemas : List Schema) : Except Unit Json := do
  .ok (.obj [("definitions", .obj (← buildDefinitions schemas))])

/-- The document written to `all.json` (lines 188–190). -/
def allFileJson (schemas : List Schema) : Json :=
  .obj [("oneOf", .arr (schemas.map (fun s =>
    .obj [("$ref", .str ("_definitions.json#/definitions/" ++ defsKey s))])))]

/-- The write phase as a whole: the per-schema files (written first, lines
164–170) and then the `_definitions.json`/`all.json` pair, whose
construction can die with an unhandled exception after the per-schema files
are already on disk. -/
def runOutputs (tpl : List FilePart) (schemas : List Schema) :
    List (String × Json) × Except Unit (Json × Json) :=
  (perSchemaFiles tpl schemas,
   do .ok ((← definitionsFileJson schemas), allFileJson schemas))

/-! ## CLI exit behaviour (lines 123–125 and 192) -/

/-- Lines 123–125: `if len(sys.argv) == 0: print("missing file"); exit(1)`.
`some 1` means the early exit fires; `none` means execution continues into
the pipeline.  `sys.argv` includes the script name at index 0. -/
def argvGuardExit (argv : List String) : Option Nat :=
  if argv.length = 0 then some 1 else none

/-- The process exit code for a run in which the pipeline itself raises no
exception: the early-exit code if the guard fires, else the `exit(0)` of
line 192. -/
def programExitCode (argv : List String) : Nat :=
  (argvGuardExit argv).getD 0

/-! ## Tree paths

A path addresses a node of a `Json` tree: `key s` steps into the value of a
map entry, `idx n` into a list element.  Used to state where the rewrite
passes touch the tree. -/

inductive Step where
  | key (s : String)
  | idx (n : Nat)
  deriving DecidableEq, Repr

/-- The node of `j` addressed by a path, if any. -/
def atPath : Json → List Step → Option Json
  | j, [] => some j
  | .obj kvs, .key s :: p =>
      match lookupJ s kvs with
      | some v => atPath v p
      | none => none
  | .arr xs, .idx n :: p =>
      match xs[n]? with
      | some v => atPath v p
      | none => none
  | _, _ => none

/-- A path that only steps through map entries (never through a list). -/
def allKeySteps : List Step → Bool
  | [] => true
  | .key _ :: p => allKeySteps p
  | .idx _ :: _ => false

/-! ## Basic lemmas about the embedding -/

theorem lookupJ_append (s : String) (l₁ l₂ : List (String × Json)) :
    lookupJ s (l₁ ++ l₂) = ((lookupJ s l₁).or (lookupJ s l₂)) := by
  induction l₁ with
  | nil => simp [lookupJ]
  | cons kv rest ih =>
      obtain ⟨k, v⟩ := kv
      by_cases h : k = s <;> simp [lookupJ, h, ih]

theorem keyMem_append (s : String) (l₁ l₂ : List (String × Json)) :
    keyMem s (l₁ ++ l₂) = (keyMem s l₁ || keyMem s l₂) := by
  cases h : lookupJ s l₁ <;> simp [keyMem, lookupJ_append, h, Option.or]

theorem lookupJ_setKey_self (l : List (String × Json)) (k : String) (v : Json) :
    lookupJ k (setKey l k v) = some v := by
  induction l with
  | nil => simp [setKey, lookupJ]
  | cons kv rest ih =>
      obtain ⟨k', v'⟩ := kv
      by_cases h : k' = k <;> simp [setKey, lookupJ, h, ih]

theorem lookupJ_setKey_ne (l : List (String × Json)) (k k' : String) (v : Json)
    (h : k' ≠ k) : lookupJ k' (setKey l k v) = lookupJ k' l := by
  induction l with
  | nil => simp [setKey, lookupJ, Ne.symm h]
  | cons kv rest ih =>
      obtain ⟨k₀, v₀⟩ := kv
      by_cases h₀ : k₀ = k
      · subst h₀
        simp [setKey, lookupJ, Ne.symm h]
      · simp [setKey, lookupJ, h₀, ih]

theorem setKey_lookup_eq (l : List (String × Json)) (k : String) (v : Json)
    (h : lookupJ k l = some v) : setKey l k v = l := by
  induction l with
  | nil => simp [lookupJ] at h
  | cons kv rest ih =>
      obtain ⟨k', v'⟩ := kv
      by_cases hk : k' = k
      · subst hk
        simp [lookupJ] at h
        simp [setKey, h]
      · simp [lookupJ, hk] at h
        simp [setKey, hk, ih h]

theorem lookupJ_apList (s : String) (l : List (String × Json)) :
    lookupJ s (apList l) = (lookupJ s l).map apValue := by
  induction l with
  | nil => simp [apList, lookupJ]
  | cons kv rest ih =>
      obtain ⟨k, v⟩ := kv
      by_cases h : k = s <;> simp [apList, lookupJ, h, ih]

theorem keyMem_apList (s : String) (l : List (String × Json)) :
    keyMem s (apList l) = keyMem s l := by
  cases h : lookupJ s l <;> simp [keyMem, lookupJ_apList, h]

theorem apList_append (l₁ l₂ : List (String × Json)) :
    apList (l₁ ++ l₂) = apList l₁ ++ apList l₂ := by
  induction l₁ with
  | nil => simp [apList]
  | cons kv rest ih =>
      obtain ⟨k, v⟩ := kv
      simp [apList, ih]

theorem apCond_apList (l : List (String × Json)) :
    apCond (apList l) = apCond l := by
  simp [apCond, keyMem_apList]

theorem lookupJ_riosList (s : String) (l : List (String × Json)) :
    lookupJ s (riosList l) = (lookupJ s l).map riosValue := by
  induction l with
  | nil => simp [riosList, lookupJ]
  | cons kv rest ih =>
      obtain ⟨k, v⟩ := kv
      by_cases h : k = s <;> simp [riosList, lookupJ, h, ih]

theorem fmtIOS_riosList (l : List (String × Json)) :
    fmtIOS (riosList l) = fmtIOS l := by
  simp [fmtIOS, lookupJ_riosList]
  cases h : lookupJ "format" l with
  | none => simp
  | some v =>
      cases v with
      | str s => simp [riosValue]
      | obj inner =>
          simp [riosValue]
          by_cases hf : fmtIOS inner = true <;>
            simp [hf, intOrStringSubst]
      | arr xs => simp [riosValue]
      | null => simp [riosValue]
      | bool b => simp [riosValue]
      | num n => simp [riosValue]

theorem riosMap_getElem (xs : List Json) (n : Nat) :
    (riosMap xs)[n]? = (xs[n]?).map replace_int_or_string := by
  induction xs generalizing n with
  | nil => simp [riosMap]
  | cons x rest ih =>
      cases n with
      | zero => simp [riosMap]
      | succ m => simp [riosMap, ih]

/-! ## Idempotence of the two write-path passes -/

mutual

theorem apValue_idem : ∀ v : Json, apValue (apValue v) = apValue v
  | .obj inner => by
      cases hb : apCond inner with
      | true =>
          have hm : keyMem "additionalProperties"
              (apList inner ++ [("additionalProperties", .bool false)]) = true := by
            rw [keyMem_append]
            simp [keyMem, lookupJ]
          have h₂ : apCond (apList inner ++ [("additionalProperties", .bool false)]) = false := by
            simp [apCond, hm]
          simp [apValue, hb, h₂, apList_append, apList_idem inner, apList]
      | false =>
          simp [apValue, hb, apCond_apList, apList_idem inner]
  | .null => rfl
  | .bool b => rfl
  | .num n => rfl
  | .str s => rfl
  | .arr xs => rfl

theorem apList_idem : ∀ l : List (String × Json), apList (apList l) = apList l
  | [] => rfl
  | (k, v) :: rest => by
      simp [apList, apValue_idem v, apList_idem rest]

end

mutual

theorem rios_idem : ∀ j : Json, replace_int_or_string (replace_int_or_string j) = replace_int_or_string j
  | .obj kvs => by simp [replace_int_or_string, riosList_idem kvs]
  | .null => rfl
  | .bool b => rfl
  | .num n => rfl
  | .str s => rfl
  | .arr xs => rfl

theorem riosList_idem : ∀ l : List (String × Json), riosList (riosList l) = riosList l
  | [] => rfl
  | (k, v) :: rest => by
      simp [riosList, riosValue_idem v, riosList_idem rest]

theorem riosValue_idem : ∀ v : Json, riosValue (riosValue v) = riosValue v
  | .obj inner => by
      cases hb : fmtIOS inner with
      | true =>
          have hs : riosValue intOrStringSubst = intOrStringSubst := rfl
          simp [riosValue, hb, hs]
      | false =>
          simp [riosValue, hb, fmtIOS_riosList, riosList_idem inner]
  | .arr xs => by simp [riosValue, riosMap_idem xs]
  | .null => rfl
  | .bool b => rfl
  | .num n => rfl
  | .str s => rfl

theorem riosMap_idem : ∀ xs : List Json, riosMap (riosMap xs) = riosMap xs
  | [] => rfl
  | x :: rest => by
      simp [riosMap, rios_idem x, riosMap_idem rest]

end

/-- C6: both write-path passes are idempotent: applying
`additional_properties` twice yields the same tree as applying it once, and
likewise for `replace_int_or_string`. -/
theorem c6_write_passes_idempotent :
    (∀ j : Json, additional_properties (additional_properties j) = additional_properties j) ∧
    (∀ j : Json, replace_int_or_string (replace_int_or_string j) = replace_int_or_string j) := by
  constructor
  · intro j
    cases j with
    | obj kvs => simp [additional_properties, apList_idem]
    | null => rfl
    | bool b => rfl
    | num n => rfl
    | str s => rfl
    | arr xs => rfl
  · exact rios_idem

/-! ## Claim C5: CLI exit behaviour -/

/-- C5 (code-bug evidence): when the program is invoked with zero input
arguments, `sys.argv` still contains the script name, so `len(sys.argv)`
is 1 and the `len(sys.argv) == 0` guard of line 123 does not fire; the run
proceeds with an empty file list, writes an empty `_definitions.json` and
`all.json`, and exits 0 — not the printed message and exit 1 the claim
describes. -/
theorem c5_zero_input_args_exits_zero :
    argvGuardExit ["openapi2jsonschema.py"] = none ∧
    programExitCode ["openapi2jsonschema.py"] = 0 ∧
    definitionsFileJson [] = .ok (.obj [("definitions", .obj [])]) ∧
    allFileJson [] = .obj [("oneOf", .arr [])] :=
  ⟨rfl, rfl, rfl, rfl⟩

/-! ## Claim C9: `append_no_duplicates` -/

/-- C9: `append_no_duplicates`: a missing key gets a fresh list (holding
just the inserted value); inserting the same value twice leaves exactly one
occurrence; inserting two distinct values leaves both, in insertion order;
existing elements are never removed or reordered and other keys are
untouched. -/
theorem c9_append_no_duplicates_spec :
    (∀ (obj : List (String × Json)) (key : String) (v : Json),
        lookupJ key obj = none →
        append_no_duplicates obj key v = .ok (setKey obj key (.arr [v])) ∧
        lookupJ key (setKey obj key (.arr [v])) = some (.arr [v])) ∧
    (∀ (obj : List (String × Json)) (key : String) (v : Json) (xs : List Json),
        lookupJ key obj = some (.arr xs) → v ∉ xs →
        ∃ obj', append_no_duplicates obj key v = .ok obj' ∧
          lookupJ key obj' = some (.arr (xs ++ [v])) ∧
          append_no_duplicates obj' key v = .ok obj' ∧
          (xs ++ [v]).count v = 1) ∧
    (∀ (obj : List (String × Json)) (key : String) (v₁ v₂ : Json) (xs : List Json),
        lookupJ key obj = some (.arr xs) → v₁ ∉ xs → v₂ ∉ xs → v₁ ≠ v₂ →
        ∃ obj' obj'',
          append_no_duplicates obj key v₁ = .ok obj' ∧
          append_no_duplicates obj' key v₂ = .ok obj'' ∧
          lookupJ key obj'' = some (.arr (xs ++ [v₁, v₂]))) ∧
    (∀ (obj obj' : List (String × Json)) (key : String) (v : Json) (xs : List Json),
        lookupJ key obj = some (.arr xs) →
        append_no_duplicates obj key v = .ok obj' →
        (lookupJ key obj' = some (.arr xs) ∨
         lookupJ key obj' = some (.arr (xs ++ [v]))) ∧
        ∀ k', k' ≠ key → lookupJ k' obj' = lookupJ k' obj) := by
  refine ⟨?_, ?_, ?_, ?_⟩
  · intro obj key v h
    exact ⟨by simp [append_no_duplicates, h], lookupJ_setKey_self _ _ _⟩
  · intro obj key v xs h hv
    refine ⟨setKey obj key (.arr (xs ++ [v])), by simp [append_no_duplicates, h, hv], ?_, ?_, ?_⟩
    · exact lookupJ_setKey_self _ _ _
    · have h₂ : lookupJ key (setKey obj key (.arr (xs ++ [v]))) = some (.arr (xs ++ [v])) :=
        lookupJ_setKey_self _ _ _
      simp [append_no_duplicates, h₂]
    · simp [List.count_append, List.count_eq_zero_of_not_mem hv]
  · intro obj key v₁ v₂ xs h h₁ h₂ hne
    refine ⟨setKey obj key (.arr (xs ++ [v₁])),
            setKey (setKey obj key (.arr (xs ++ [v₁]))) key (.arr (xs ++ [v₁] ++ [v₂])), ?_, ?_, ?_⟩
    · simp [append_no_duplicates, h, h₁]
    · have hl : lookupJ key (setKey obj key (.arr (xs ++ [v₁]))) = some (.arr (xs ++ [v₁])) :=
        lookupJ_setKey_self _ _ _
      have hnm : v₂ ∉ xs ++ [v₁] := by
        simp [h₂, hne]
        intro hc
        exact hne hc.symm
      simp [append_no_duplicates, hl, hnm]
    · have := lookupJ_setKey_self (setKey obj key (.arr (xs ++ [v₁]))) key (.arr (xs ++ [v₁] ++ [v₂]))
      simpa using this
  · intro obj obj' key v xs h hres
    by_cases hv : v ∈ xs
    · simp [append_no_duplicates, h, hv] at hres
      subst hres
      exact ⟨Or.inl h, fun _ _ => rfl⟩
    · simp [append_no_duplicates, h, hv] at hres
      subst hres
      exact ⟨Or.inr (lookupJ_setKey_self _ _ _),
             fun k' hk' => lookupJ_setKey_ne _ _ _ _ hk'⟩

/-- Witness for C9 at a concrete input: starting from `{"enum": []}`,
inserting `"g/v1"` twice yields exactly one occurrence. -/
theorem c9_append_no_duplicates_spec_witness :
    ∃ obj', append_no_duplicates [("enum", .arr [])] "enum" (.str "g/v1") = .ok obj' ∧
      lookupJ "enum" obj' = some (.arr (([] : List Json) ++ [Json.str "g/v1"])) ∧
      append_no_duplicates obj' "enum" (.str "g/v1") = .ok obj' ∧
      (([] : List Json) ++ [Json.str "g/v1"]).count (Json.str "g/v1") = 1 :=
  c9_append_no_duplicates_spec.2.1 [("enum", .arr [])] "enum" (.str "g/v1") []
    (by decide) (by simp)

/-! ## Claim C1: where `additional_properties` injects

The pass only examines dict values of dict entries: the root object is
never itself checked, and list values are passed through untouched (there
is no list branch in `additional_properties`).  The characterization below
says: the output node at a path `p` gains an `additionalProperties` key
exactly when `p` is nonempty, consists only of map-entry steps, and the
input node there has a `properties` key without `additionalProperties`;
everywhere else the presence of `additionalProperties` is unchanged. -/

theorem apValue_atPath : ∀ (p : List Step) (v : Json) (inner : List (String × Json)),
    atPath v p = some (.obj inner) →
    ∃ inner', atPath (apValue v) p = some (.obj inner') ∧
      keyMem "additionalProperties" inner' =
        (keyMem "additionalProperties" inner ||
         (allKeySteps p && keyMem "properties" inner)) ∧
      (keyMem "additionalProperties" inner = false → allKeySteps p = true →
        keyMem "properties" inner = true →
        lookupJ "additionalProperties" inner' = some (.bool false))
  | [], v, inner => by
      intro h
      simp [atPath] at h
      subst h
      cases hc : apCond inner with
      | true =>
          have hc' := hc
          rw [apCond, Bool.and_eq_true] at hc'
          obtain ⟨hp, hnot⟩ := hc'
          have ha : keyMem "additionalProperties" inner = false := by
            cases h2 : keyMem "additionalProperties" inner
            · rfl
            · rw [h2] at hnot; simp at hnot
          have hnone : lookupJ "additionalProperties" inner = none := by
            cases hl : lookupJ "additionalProperties" inner
            · rfl
            · rw [keyMem, hl] at ha; simp at ha
          refine ⟨apList inner ++ [("additionalProperties", .bool false)],
                  by simp [apValue, hc, atPath], ?_, ?_⟩
          · rw [keyMem_append, keyMem_apList, ha, hp]
            simp [keyMem, lookupJ, allKeySteps]
          · intro _ _ _
            rw [lookupJ_append, lookupJ_apList, hnone]
            simp [lookupJ, Option.or]
      | false =>
          refine ⟨apList inner, by simp [apValue, hc, atPath], ?_, ?_⟩
          · rw [keyMem_apList]
            cases haP : keyMem "additionalProperties" inner with
            | true => simp [allKeySteps]
            | false =>
                have hpr : keyMem "properties" inner = false := by
                  cases hpr : keyMem "properties" inner
                  · rfl
                  · exfalso; rw [apCond, hpr, haP] at hc; simp at hc
                simp [allKeySteps, hpr]
          · intro h1 _ h3
            exfalso
            rw [apCond, h3, h1] at hc
            simp at hc
  | .key s :: p', v, inner => by
      intro h
      cases v with
      | obj kvs =>
          rw [atPath] at h
          cases hw : lookupJ s kvs with
          | none => rw [hw] at h; simp at h
          | some w =>
              rw [hw] at h
              obtain ⟨inner', hpath, hkm, hval⟩ := apValue_atPath p' w inner h
              refine ⟨inner', ?_, ?_, ?_⟩
              · cases hc : apCond kvs with
                | true =>
                    have hl : lookupJ s (apList kvs ++ [("additionalProperties", .bool false)]) =
                        some (apValue w) := by
                      rw [lookupJ_append, lookupJ_apList, hw]; rfl
                    simpa [apValue, hc, atPath, hl] using hpath
                | false =>
                    have hl : lookupJ s (apList kvs) = some (apValue w) := by
                      rw [lookupJ_apList, hw]; rfl
                    simpa [apValue, hc, atPath, hl] using hpath
              · simpa [allKeySteps] using hkm
              · intro h1 h2 h3
                exact hval h1 (by simpa [allKeySteps] using h2) h3
      | null => simp [atPath] at h
      | bool b => simp [atPath] at h
      | num n => simp [atPath] at h
      | str t => simp [atPath] at h
      | arr xs => simp [atPath] at h
  | .idx n :: p', v, inner => by
      intro h
      cases v with
      | arr xs =>
          refine ⟨inner, ?_, ?_, ?_⟩
          · simpa [apValue] using h
          · simp [allKeySteps]
          · intro _ h2; simp [allKeySteps] at h2
      | obj kvs => simp [atPath] at h
      | null => simp [atPath] at h
      | bool b => simp [atPath] at h
      | num n => simp [atPath] at h
      | str t => simp [atPath] at h

/-- C1 (amended): `additionalProperties: false` is injected exactly at
object nodes that are the value of a map entry reached from the root
through map entries only (the pass never checks the root object and never
descends into arrays), have a `properties` key and lack
`additionalProperties`; at every other object node the presence of
`additionalProperties` is unchanged, and where injection happens the
injected value is `false`. -/
theorem c1_injection_characterization :
    ∀ (j : Json) (p : List Step) (inner : List (String × Json)),
      atPath j p = some (.obj inner) →
      ∃ inner', atPath (additional_properties j) p = some (.obj inner') ∧
        keyMem "additionalProperties" inner' =
          (keyMem "additionalProperties" inner ||
           (!p.isEmpty && allKeySteps p && keyMem "properties" inner)) ∧
        (keyMem "additionalProperties" inner = false → p.isEmpty = false →
          allKeySteps p = true → keyMem "properties" inner = true →
          lookupJ "additionalProperties" inner' = some (.bool false)) := by
  intro j p inner h
  cases j with
  | obj kvs =>
      cases p with
      | nil =>
          simp [atPath] at h
          subst h
          exact ⟨apList kvs, by simp [additional_properties, atPath],
                 by simp [keyMem_apList], by simp⟩
      | cons st p' =>
          cases st with
          | key s =>
              rw [atPath] at h
              cases hw : lookupJ s kvs with
              | none => rw [hw] at h; simp at h
              | some w =>
                  rw [hw] at h
                  obtain ⟨inner', hpath, hkm, hval⟩ := apValue_atPath p' w inner h
                  have hl : lookupJ s (apList kvs) = some (apValue w) := by
                    rw [lookupJ_apList, hw]; rfl
                  refine ⟨inner', by simpa [additional_properties, atPath, hl] using hpath, ?_, ?_⟩
                  · simpa [allKeySteps] using hkm
                  · intro h1 _ h3 h4
                    exact hval h1 (by simpa [allKeySteps] using h3) h4
          | idx n => simp [atPath] at h
  | arr xs =>
      refine ⟨inner, ?_, ?_, ?_⟩
      · simpa [additional_properties] using h
      · cases p with
        | nil => simp [atPath] at h
        | cons st p' =>
            cases st with
            | key s => simp [atPath] at h
            | idx n => simp [allKeySteps]
      · intro _ _ hks _
        cases p with
        | nil => simp [atPath] at h
        | cons st p' =>
            cases st with
            | key s => simp [atPath] at h
            | idx n => simp [allKeySteps] at hks
  | null => cases p with
      | nil => simp [atPath] at h
      | cons st p' => cases st <;> simp [atPath] at h
  | bool b => cases p with
      | nil => simp [atPath] at h
      | cons st p' => cases st <;> simp [atPath] at h
  | num n => cases p with
      | nil => simp [atPath] at h
      | cons st p' => cases st <;> simp [atPath] at h
  | str t => cases p with
      | nil => simp [atPath] at h
      | cons st p' => cases st <;> simp [atPath] at h

/-- Witness for C1 (amended) at a concrete input: in
`{"spec": {"properties": {}}}` the node at path `["spec"]` qualifies and
the output there carries `additionalProperties`. -/
theorem c1_injection_characterization_witness :
    ∃ inner', atPath (additional_properties
        (.obj [("spec", .obj [("properties", .obj [])])])) [.key "spec"] = some (.obj inner') ∧
      keyMem "additionalProperties" inner' =
        (keyMem "additionalProperties" [("properties", Json.obj [])] ||
         (!([Step.key "spec"] : List Step).isEmpty && allKeySteps [Step.key "spec"] &&
          keyMem "properties" [("properties", Json.obj [])])) ∧
      (keyMem "additionalProperties" [("properties", Json.obj [])] = false →
        ([Step.key "spec"] : List Step).isEmpty = false →
        allKeySteps [Step.key "spec"] = true →
        keyMem "properties" [("properties", Json.obj [])] = true →
        lookupJ "additionalProperties" inner' = some (.bool false)) :=
  c1_injection_characterization (.obj [("spec", .obj [("properties", .obj [])])])
    [.key "spec"] [("properties", .obj [])] (by decide)

/-- The input refuting C1 as stated: the root object and an object inside a
list both have `properties` and no `additionalProperties`. -/
def c1CounterInput : Json :=
  .obj [("properties", .obj []), ("a", .arr [.obj [("properties", .obj [])]])]

/-- C1 counterexample: the claim says `additionalProperties: false` is
injected at every object node with a `properties` key and no
`additionalProperties` key; here both the root node and the object at path
`a[0]` qualify, yet the pass returns the input unchanged — no injection
anywhere. -/
theorem c1_counterexample :
    additional_properties c1CounterInput = c1CounterInput ∧
    keyMem "properties" [("properties", Json.obj []), ("a", Json.arr [.obj [("properties", .obj [])]])] = true ∧
    keyMem "additionalProperties" [("properties", Json.obj []), ("a", Json.arr [.obj [("properties", .obj [])]])] = false ∧
    atPath c1CounterInput [.key "a", .idx 0] = some (.obj [("properties", .obj [])]) ∧
    keyMem "properties" [("properties", Json.obj [])] = true ∧
    keyMem "additionalProperties" [("properties", Json.obj [])] = false := by
  refine ⟨by decide, by decide, by decide, by decide, by decide, by decide⟩

/-! ## Claim C2: where `replace_int_or_string` replaces

The pass only format-checks dict values of dict entries.  The root object
is never checked; a dict element of a list is recursed into via a fresh
top-level call (so its own `format` is not checked); a list that is a map
entry's value is rebuilt element-wise, while a list encountered by a fresh
top-level call (the root, or a list nested directly inside another list)
is returned whole, untouched.  A replaced node's content is discarded
wholesale, so nodes nested inside it disappear.  `outRios` captures this
routing as a recursion over paths, and the characterization theorem states
that navigating the output equals `outRios` on the input. -/

/-- The position of a subtree relative to the recursion of
`replace_int_or_string`: `top` is a fresh call (root, or list element),
`entry` is the value of a map entry. -/
inductive RiosMode where
  | top
  | entry
  deriving DecidableEq, Repr

/-- The rewrite the pass applies to a subtree in the given position. -/
def riosAt : RiosMode → Json → Json
  | .top, j => replace_int_or_string j
  | .entry, v => riosValue v

/-- Where each input node ends up in the output of the pass, computed on
the input side: map-entry dict values with `format == "int-or-string"`
become the fixed substitute (paths continuing below such a node navigate
the substitute); other map entries are followed key-wise; elements of
map-entry lists are followed as fresh top-level calls; a list met by a
fresh top-level call is left untouched together with everything below it. -/
def outRios : RiosMode → Json → List Step → Option Json
  | mode, v, [] => some (riosAt mode v)
  | .entry, .obj inner, .key s :: p =>
      if fmtIOS inner then atPath intOrStringSubst (.key s :: p)
      else (lookupJ s inner).bind (fun w => outRios .entry w p)
  | .top, .obj kvs, .key s :: p =>
      (lookupJ s kvs).bind (fun w => outRios .entry w p)
  | .entry, .arr xs, .idx n :: p =>
      (xs[n]?).bind (fun w => outRios .top w p)
  | .top, .arr xs, .idx n :: p => atPath (.arr xs) (.idx n :: p)
  | _, _, _ => none

theorem outRios_spec : ∀ (p : List Step) (mode : RiosMode) (v : Json),
    atPath (riosAt mode v) p = outRios mode v p
  | [], mode, v => by cases mode <;> simp [outRios, atPath, riosAt]
  | .key s :: p, .top, v => by
      cases v with
      | obj kvs =>
          cases hw : lookupJ s kvs with
          | none =>
              have hl : lookupJ s (riosList kvs) = none := by
                rw [lookupJ_riosList, hw]; rfl
              simp [riosAt, replace_int_or_string, atPath, hl, outRios, hw]
          | some w =>
              have hl : lookupJ s (riosList kvs) = some (riosValue w) := by
                rw [lookupJ_riosList, hw]; rfl
              have step : atPath (riosValue w) p = outRios .entry w p :=
                outRios_spec p .entry w
              simp [riosAt, replace_int_or_string, atPath, hl, outRios, hw, step, riosAt]
      | arr xs => simp [riosAt, replace_int_or_string, atPath, outRios]
      | null => simp [riosAt, replace_int_or_string, atPath, outRios]
      | bool b => simp [riosAt, replace_int_or_string, atPath, outRios]
      | num n => simp [riosAt, replace_int_or_string, atPath, outRios]
      | str t => simp [riosAt, replace_int_or_string, atPath, outRios]
  | .key s :: p, .entry, v => by
      cases v with
      | obj inner =>
          cases hf : fmtIOS inner with
          | true => simp [riosAt, riosValue, hf, outRios]
          | false =>
              cases hw : lookupJ s inner with
              | none =>
                  have hl : lookupJ s (riosList inner) = none := by
                    rw [lookupJ_riosList, hw]; rfl
                  simp [riosAt, riosValue, hf, atPath, hl, outRios, hw]
              | some w =>
                  have hl : lookupJ s (riosList inner) = some (riosValue w) := by
                    rw [lookupJ_riosList, hw]; rfl
                  have step : atPath (riosValue w) p = outRios .entry w p :=
                    outRios_spec p .entry w
                  simp [riosAt, riosValue, hf, atPath, hl, outRios, hw, step]
      | arr xs => simp [riosAt, riosValue, atPath, outRios]
      | null => simp [riosAt, riosValue, atPath, outRios]
      | bool b => simp [riosAt, riosValue, atPath, outRios]
      | num n => simp [riosAt, riosValue, atPath, outRios]
      | str t => simp [riosAt, riosValue, atPath, outRios]
  | .idx n :: p, .top, v => by
      cases v with
      | arr xs => simp [riosAt, replace_int_or_string, outRios]
      | obj kvs => simp [riosAt, replace_int_or_string, atPath, outRios]
      | null => simp [riosAt, replace_int_or_string, atPath, outRios]
      | bool b => simp [riosAt, replace_int_or_string, atPath, outRios]
      | num m => simp [riosAt, replace_int_or_string, atPath, outRios]
      | str t => simp [riosAt, replace_int_or_string, atPath, outRios]
  | .idx n :: p, .entry, v => by
      cases v with
      | arr xs =>
          cases hx : xs[n]? with
          | none =>
              have hr : (riosMap xs)[n]? = none := by
                rw [riosMap_getElem, hx]; rfl
              simp [riosAt, riosValue, atPath, hr, outRios, hx]
          | some w =>
              have hr : (riosMap xs)[n]? = some (replace_int_or_string w) := by
                rw [riosMap_getElem, hx]; rfl
              have step : atPath (replace_int_or_string w) p = outRios .top w p :=
                outRios_spec p .top w
              simp [riosAt, riosValue, atPath, hr, outRios, hx, step]
      | obj inner =>
          cases hf : fmtIOS inner with
          | true => simp [riosAt, riosValue, hf, intOrStringSubst, atPath, outRios]
          | false => simp [riosAt, riosValue, hf, atPath, outRios]
      | null => simp [riosAt, riosValue, atPath, outRios]
      | bool b => simp [riosAt, riosValue, atPath, outRios]
      | num m => simp [riosAt, riosValue, atPath, outRios]
      | str t => simp [riosAt, riosValue, atPath, outRios]

/-- C2 (amended): the int-or-string substitution happens exactly at map
nodes that occur as the value of a map entry in a region the recursion
reaches (map values key-wise, elements of map-entry lists; never the root
itself, never inside a list met by a fresh top-level call, never inside an
already-replaced node) and whose `format` equals `"int-or-string"`; such a
node is replaced wholesale, discarding its other keys; every other
reachable map node is recursed into, scalars are unchanged.  Stated as a
full characterization: navigating any path in the output tree agrees with
the routing function `outRios` on the input, and in particular a qualifying
map-entry value is replaced by exactly the substitute node. -/
theorem c2_replacement_characterization :
    (∀ (j : Json) (p : List Step),
        atPath (replace_int_or_string j) p = outRios .top j p) ∧
    (∀ (kvs : List (String × Json)) (s : String) (inner : List (String × Json)),
        lookupJ s kvs = some (.obj inner) → fmtIOS inner = true →
        atPath (replace_int_or_string (.obj kvs)) [.key s] = some intOrStringSubst) := by
  constructor
  · exact fun j p => outRios_spec p .top j
  · intro kvs s inner hw hf
    have := outRios_spec [Step.key s] .top (.obj kvs)
    rw [riosAt] at this
    rw [this]
    simp [outRios, hw, riosAt, riosValue, hf]

/-- Witness for C2 (amended) at a concrete input: in
`{"x": {"format": "int-or-string", "y": 3}}` the node at `["x"]` is
replaced by exactly the substitute. -/
theorem c2_replacement_characterization_witness :
    atPath (replace_int_or_string
        (.obj [("x", .obj [("format", .str "int-or-string"), ("y", .num 3)])]))
      [.key "x"] = some intOrStringSubst :=
  c2_replacement_characterization.2
    [("x", .obj [("format", .str "int-or-string"), ("y", .num 3)])] "x"
    [("format", .str "int-or-string"), ("y", .num 3)] (by decide) (by decide)

/-- The input refuting C2 as stated: the root node has
`format == "int-or-string"`, a qualifying map node sits inside a nested
list, and a qualifying map node is nested inside another qualifying map
entry. -/
def c2CounterInput : Json :=
  .obj [("format", .str "int-or-string"),
        ("a", .arr [.arr [.obj [("format", .str "int-or-string")]]]),
        ("c", .obj [("format", .str "int-or-string"),
                    ("d", .obj [("format", .str "int-or-string")])])]

/-- C2 counterexample: the claim says every map node with
`format == "int-or-string"` is replaced by the substitute and every list is
recursed element-wise; here the root qualifies (`fmtIOS` true) yet the
output is not the substitute — the root keeps its keys, the map inside the
nested list survives untouched, and the node under `"c"` is replaced
wholesale so its nested qualifying node is discarded rather than
replaced. -/
theorem c2_counterexample :
    replace_int_or_string c2CounterInput =
      .obj [("format", .str "int-or-string"),
            ("a", .arr [.arr [.obj [("format", .str "int-or-string")]]]),
            ("c", intOrStringSubst)] ∧
    fmtIOS [("format", Json.str "int-or-string"),
            ("a", Json.arr [.arr [.obj [("format", .str "int-or-string")]]]),
            ("c", Json.obj [("format", .str "int-or-string"),
                            ("d", .obj [("format", .str "int-or-string")])])] = true ∧
    replace_int_or_string c2CounterInput ≠ intOrStringSubst := by
  refine ⟨by decide, by decide, by decide⟩

/-! ## Claim C3: when the nullable-optional pass raises

Two error sources exist.  (a) The line-92 `NameError` fires exactly when
the traversal meets a map entry with key `"type"` and a string value other
than `"null"`.  (b) The line-91 `TypeError` fires whenever any string-valued
entry is processed in a frame whose `grand_parent` is a truthy
non-container.  The traversal enters map values and the elements of
map-entry lists, but a list met by a fresh top-level call (in particular a
list nested directly inside another list) is returned unchanged by the
`AttributeError` fallback, so entries inside it are never examined.
Recursive frames always pass `None`, a dict or a list as context, so (b)
is reachable only through the caller-supplied `parent`/`grand_parent`
arguments.  `badTopCtx` computes reachability of either trigger along
exactly the traversal, threading the contexts the way the source does;
`badElem` is its restriction to the default all-`None` invocation. -/

mutual

/-- Does the loop body raise for this entry value under all-`None` outer
contexts?  Strings trigger only line 92 (`k == "type" and v != "null"`),
dicts and list values recurse, other scalars never raise. -/
def badValue : String → Json → Bool
  | k, .str s => k == "type" && s != "null"
  | _, .obj inner => hasBadTypeObj inner
  | _, .arr xs => hasBadTypeArr xs
  | _, _ => false

/-- Does processing these dict entries raise (default contexts)? -/
def hasBadTypeObj : List (String × Json) → Bool
  | [] => false
  | (k, v) :: rest => badValue k v || hasBadTypeObj rest

/-- Does processing these list elements (each via a fresh top-level call)
raise (default contexts)? -/
def hasBadTypeArr : List Json → Bool
  | [] => false
  | x :: xs => badElem x || hasBadTypeArr xs

/-- Does a fresh top-level call on this value raise (default contexts)?
Only dicts are iterated; everything else returns unchanged. -/
def badElem : Json → Bool
  | .obj inner => hasBadTypeObj inner
  | _ => false

end

mutual

/-- Does the loop body raise for this entry value in a frame whose dict is
`data`, whose `parent` is `parent` and whose `grand_parent` is `gp`?
Mirrors `anofValue`: the string branch raises on line 91 when `gp` is a
truthy non-container, otherwise on line 92 for a non-"null" `type` entry;
a dict value recurses with the frame shifted (`parent := data`,
`grand_parent := parent`); a list value recurses element-wise. -/
def badValueCtx : String → Json → Json → Option Json → Option Json → Bool
  | k, .str s, _, _, gp => line91Raises gp || (k == "type" && s != "null")
  | _, .obj inner, data, parent, _ => badObjCtx inner (.obj inner) (some data) parent
  | _, .arr xs, _, parent, _ => badArrCtx xs (.arr xs) parent
  | _, _, _, _, _ => false

/-- Does processing these dict entries raise, in the frame described by
`data`/`parent`/`gp` (mirroring `anofList`)? -/
def badObjCtx (entries : List (String × Json)) (data : Json)
    (parent gp : Option Json) : Bool :=
  match entries with
  | [] => false
  | (k, v) :: rest => badValueCtx k v data parent gp || badObjCtx rest data parent gp

/-- Does processing these list elements raise (each element a fresh
top-level call with `parent := the list`, `grand_parent := parent`,
mirroring `anofElems`)? -/
def badArrCtx (xs : List Json) (lst : Json) (parent : Option Json) : Bool :=
  match xs with
  | [] => false
  | x :: rest => badTopCtx x (some lst) parent || badArrCtx rest lst parent

/-- Does a top-level call on `j` with contexts `parent`/`gp` raise? -/
def badTopCtx (j : Json) (parent gp : Option Json) : Bool :=
  match j with
  | .obj kvs => badObjCtx kvs (.obj kvs) parent gp
  | _ => false

end

mutual

theorem anof_err_iff : ∀ (j : Json) (parent gp : Option Json) (key : Option String),
    (allow_null_optional_fields j parent gp key = .error ()) ↔
      badTopCtx j parent gp = true
  | .obj kvs, parent, gp, key => by
      rw [allow_null_optional_fields]
      cases hl : anofList kvs (.obj kvs) parent gp with
      | error e =>
          cases e
          have hb := (anofList_err_iff kvs (.obj kvs) parent gp).mp hl
          simp [hl, Bind.bind, Except.bind, badTopCtx, hb]
      | ok out =>
          have hnb : badObjCtx kvs (.obj kvs) parent gp = false := by
            cases hbv : badObjCtx kvs (.obj kvs) parent gp
            · rfl
            · have := (anofList_err_iff kvs (.obj kvs) parent gp).mpr hbv
              rw [hl] at this; cases this
          simp [hl, Bind.bind, Except.bind, badTopCtx, hnb]
  | .arr xs, _, _, _ => by simp [allow_null_optional_fields, badTopCtx]
  | .null, _, _, _ => by simp [allow_null_optional_fields, badTopCtx]
  | .bool b, _, _, _ => by simp [allow_null_optional_fields, badTopCtx]
  | .num n, _, _, _ => by simp [allow_null_optional_fields, badTopCtx]
  | .str s, _, _, _ => by simp [allow_null_optional_fields, badTopCtx]

theorem anofList_err_iff : ∀ (entries : List (String × Json)) (data : Json)
    (parent gp : Option Json),
    (anofList entries data parent gp = .error ()) ↔
      badObjCtx entries data parent gp = true
  | [], _, _, _ => by simp [anofList, badObjCtx]
  | (k, v) :: rest, data, parent, gp => by
      rw [anofList]
      cases hv : anofValue k v data parent gp with
      | error e =>
          cases e
          have hb := (anofValue_err_iff k v data parent gp).mp hv
          simp [hv, Bind.bind, Except.bind, badObjCtx, hb]
      | ok w =>
          have hnb : badValueCtx k v data parent gp = false := by
            cases hbv : badValueCtx k v data parent gp
            · rfl
            · have := (anofValue_err_iff k v data parent gp).mpr hbv
              rw [hv] at this; cases this
          cases hr : anofList rest data parent gp with
          | error e =>
              cases e
              have hbr := (anofList_err_iff rest data parent gp).mp hr
              simp [hv, hr, Bind.bind, Except.bind, badObjCtx, hnb, hbr]
          | ok rest' =>
              have hnr : badObjCtx rest data parent gp = false := by
                cases hbr : badObjCtx rest data parent gp
                · rfl
                · have := (anofList_err_iff rest data parent gp).mpr hbr
                  rw [hr] at this; cases this
              simp [hv, hr, Bind.bind, Except.bind, badObjCtx, hnb, hnr]

theorem anofValue_err_iff : ∀ (k : String) (v : Json) (data : Json)
    (parent gp : Option Json),
    (anofValue k v data parent gp = .error ()) ↔
      badValueCtx k v data parent gp = true
  | k, .obj inner, data, parent, gp => by
      rw [anofValue]
      exact (anof_err_iff (.obj inner) (some data) parent (some k)).trans
        (by simp [badTopCtx, badValueCtx])
  | k, .arr xs, data, parent, gp => by
      rw [anofValue]
      cases he : anofElems xs (.arr xs) parent k with
      | error e =>
          cases e
          have hb := (anofElems_err_iff xs (.arr xs) parent k).mp he
          simp [he, Bind.bind, Except.bind, badValueCtx, hb]
      | ok xs' =>
          have hnb : badArrCtx xs (.arr xs) parent = false := by
            cases hbv : badArrCtx xs (.arr xs) parent
            · rfl
            · have := (anofElems_err_iff xs (.arr xs) parent k).mpr hbv
              rw [he] at this; cases this
          simp [he, Bind.bind, Except.bind, badValueCtx, hnb]
  | k, .str s, _, _, gp => by
      cases hg : line91Raises gp <;>
        cases hc : (k == "type" && s != "null") <;>
          simp [anofValue, badValueCtx, hg, hc]
  | k, .null, _, _, _ => by simp [anofValue, badValueCtx]
  | k, .bool b, _, _, _ => by simp [anofValue, badValueCtx]
  | k, .num n, _, _, _ => by simp [anofValue, badValueCtx]

theorem anofElems_err_iff : ∀ (xs : List Json) (lst : Json) (parent : Option Json)
    (k : String),
    (anofElems xs lst parent k = .error ()) ↔ badArrCtx xs lst parent = true
  | [], _, _, _ => by simp [anofElems, badArrCtx]
  | x :: rest, lst, parent, k => by
      rw [anofElems]
      cases hx : allow_null_optional_fields x (some lst) parent (some k) with
      | error e =>
          cases e
          have hb := (anof_err_iff x (some lst) parent (some k)).mp hx
          simp [hx, Bind.bind, Except.bind, badArrCtx, hb]
      | ok x' =>
          have hnb : badTopCtx x (some lst) parent = false := by
            cases hbv : badTopCtx x (some lst) parent
            · rfl
            · have := (anof_err_iff x (some lst) parent (some k)).mpr hbv
              rw [hx] at this; cases this
          cases hr : anofElems rest lst parent k with
          | error e =>
              cases e
              have hbr := (anofElems_err_iff rest lst parent k).mp hr
              simp [hx, hr, Bind.bind, Except.bind, badArrCtx, hnb, hbr]
          | ok rest' =>
              have hnr : badArrCtx rest lst parent = false := by
                cases hbr : badArrCtx rest lst parent
                · rfl
                · have := (anofElems_err_iff rest lst parent k).mpr hbr
                  rw [hr] at this; cases this
              simp [hx, hr, Bind.bind, Except.bind, badArrCtx, hnb, hnr]

end

mutual

theorem badTopCtx_eq_badElem : ∀ (j : Json) (parent gp : Option Json),
    line91Raises gp = false → line91Raises parent = false →
    badTopCtx j parent gp = badElem j
  | .obj kvs, parent, gp, hg, hp => by
      rw [badTopCtx, badElem,
          badObjCtx_eq kvs (.obj kvs) parent gp hg hp (by simp [line91Raises])]
  | .arr xs, _, _, _, _ => rfl
  | .null, _, _, _, _ => rfl
  | .bool b, _, _, _, _ => rfl
  | .num n, _, _, _, _ => rfl
  | .str s, _, _, _, _ => rfl

theorem badObjCtx_eq : ∀ (entries : List (String × Json)) (data : Json)
    (parent gp : Option Json),
    line91Raises gp = false → line91Raises parent = false →
    line91Raises (some data) = false →
    badObjCtx entries data parent gp = hasBadTypeObj entries
  | [], _, _, _, _, _, _ => rfl
  | (k, v) :: rest, data, parent, gp, hg, hp, hd => by
      rw [badObjCtx, hasBadTypeObj, badValueCtx_eq k v data parent gp hg hp hd,
          badObjCtx_eq rest data parent gp hg hp hd]

theorem badValueCtx_eq : ∀ (k : String) (v : Json) (data : Json)
    (parent gp : Option Json),
    line91Raises gp = false → line91Raises parent = false →
    line91Raises (some data) = false →
    badValueCtx k v data parent gp = badValue k v
  | k, .str s, _, _, gp => fun hg _ _ => by
      simp [badValueCtx, badValue, hg]
  | k, .obj inner, data, parent, gp => fun _ hp hd => by
      rw [badValueCtx, badValue]
      exact badObjCtx_eq inner (.obj inner) (some data) parent hp hd
        (by simp [line91Raises])
  | k, .arr xs, data, parent, gp => fun _ hp _ => by
      rw [badValueCtx, badValue]
      exact badArrCtx_eq xs (.arr xs) parent hp (by simp [line91Raises])
  | k, .null, _, _, _ => fun _ _ _ => rfl
  | k, .bool b, _, _, _ => fun _ _ _ => rfl
  | k, .num n, _, _, _ => fun _ _ _ => rfl

theorem badArrCtx_eq : ∀ (xs : List Json) (lst : Json) (parent : Option Json),
    line91Raises parent = false → line91Raises (some lst) = false →
    badArrCtx xs lst parent = hasBadTypeArr xs
  | [], _, _, _, _ => rfl
  | x :: rest, lst, parent, hp, hl => by
      rw [badArrCtx, hasBadTypeArr, badTopCtx_eq_badElem x (some lst) parent hp hl,
          badArrCtx_eq rest lst parent hp hl]

end

/-- C3 (amended): invoking the nullable-optional pass raises an unrecovered
error exactly when its traversal (map values; elements of map-entry lists;
never inside a list met by a fresh top-level call, such as a list nested
directly inside another list) reaches a string-valued map entry that either
(a) has key `type` and a value other than `"null"` — the line-92 undefined
`has_required_field` `NameError` — or (b) sits in a frame whose
`grand_parent` context is a truthy non-container (a true bool or a nonzero
number), where line 91's `"required" in grand_parent` raises `TypeError`.
Recursive frames always pass `None`, a dict or a list, so (b) is reachable
only through the caller-supplied `parent`/`grand_parent` arguments, and
under the default invocation (all contexts `None`) the condition is exactly
(a).  The pass is not invoked anywhere on the write path
(`write_transform` composes only the other two passes). -/
theorem c3_nameerror_characterization :
    (∀ (j : Json) (parent gp : Option Json) (key : Option String),
        allow_null_optional_fields j parent gp key = .error () ↔
          badTopCtx j parent gp = true) ∧
    (∀ j : Json,
        allow_null_optional_fields j .none .none .none = .error () ↔
          badElem j = true) := by
  constructor
  · exact anof_err_iff
  · intro j
    rw [anof_err_iff j .none .none .none, badTopCtx_eq_badElem j .none .none rfl rfl]

/-- Witness for C3 (amended) at concrete inputs: a top-level `type: string`
entry raises under the default contexts, and a plain string entry raises
when `grand_parent` is the number 5 (the line-91 `TypeError`). -/
theorem c3_nameerror_characterization_witness :
    allow_null_optional_fields (.obj [("type", .str "string")]) .none .none .none = .error () ∧
    allow_null_optional_fields (.obj [("x", .str "hello")]) .none (.some (.num 5)) .none = .error () :=
  ⟨(c3_nameerror_characterization.2 (.obj [("type", .str "string")])).mpr (by decide),
   (c3_nameerror_characterization.1 (.obj [("x", .str "hello")]) .none (.some (.num 5)) .none).mpr
     (by decide)⟩

/-- The input refuting C3 as stated: a `type: "string"` map entry buried in
a list nested directly inside another list. -/
def c3CounterInput : Json :=
  .obj [("a", .arr [.arr [.obj [("type", .str "string")]]])]

/-- C3 counterexample: the claim says the pass raises for every input tree
containing a map entry with key `type` and a string value other than
`"null"`; this tree contains such an entry (at `a[0][0].type`), yet the
pass (invoked as on the claimed path, with default contexts) returns the
tree unchanged instead of raising. -/
theorem c3_counterexample :
    allow_null_optional_fields c3CounterInput .none .none .none = .ok c3CounterInput ∧
    atPath c3CounterInput [.key "a", .idx 0, .idx 0] =
      some (.obj [("type", .str "string")]) := by
  refine ⟨?_, by decide⟩
  simp [c3CounterInput, allow_null_optional_fields, anofList, anofValue, anofElems,
        line91Raises, Bind.bind, Except.bind]

/-! ## Claim C4: silent skipping vs. lookup errors in the extractor -/

/-- The substitution value a template part receives for a given schema,
following the spec's wording: the kind, the group truncated to its first
dot-delimited segment, the version, or the literal text. -/
def renderPart (s : Schema) : FilePart → String
  | .lit t => t
  | .kindField => s.kind
  | .groupField => firstDotSegment s.group
  | .versionField => s.version

/-- The spec-side description of the written filename: render the template
(concatenating its substituted parts), lower-case the whole result, append
`".json"`, and keep only the base name component. -/
def writtenFilenameSpec (tpl : List FilePart) (s : Schema) : String :=
  basename (((tpl.map (renderPart s)).foldr (· ++ ·) "").toLower ++ ".json")

theorem renderTemplate_eq_foldr (tpl : List FilePart) (s : Schema) :
    renderTemplate tpl s.kind (firstDotSegment s.group) s.version =
      (tpl.map (renderPart s)).foldr (· ++ ·) "" := by
  induction tpl with
  | nil => rfl
  | cons part rest ih => cases part <;> simp [renderTemplate, renderPart, ih]

/-- C7: the name under which `write_schema_file` writes equals the spec's
description — template rendered with the kind, the group truncated to its
first dot segment and the version, the whole lower-cased, `".json"`
appended, then only the base name kept; and the default template renders as
`{kind}-{group}-{version}`. -/
theorem c7_written_filename_spec :
    (∀ (tpl : List FilePart) (s : Schema),
        writtenFilename tpl s = writtenFilenameSpec tpl s) ∧
    (∀ k g v : String,
        renderTemplate defaultFilenameFormat k g v = k ++ "-" ++ g ++ "-" ++ v) := by
  constructor
  · intro tpl s
    rw [writtenFilename, filenameInLoop, writtenFilenameSpec, renderTemplate_eq_foldr]
  · intro k g v
    simp [renderTemplate, defaultFilenameFormat, String.append_assoc]

/-! ## Claim C8: the consolidated `_definitions.json` -/

/-- Spec-side helper: modify the value under a key (a missing key is the
unhandled lookup error). -/
def modifyAtKey (kvs : List (String × Json)) (k : String)
    (f : Json → Except Unit Json) : Except Unit (List (String × Json)) := do
  let v ← getItemE kvs k
  let v' ← f v
  .ok (setKey kvs k v')

/-- Spec-side wording of "append (without duplicating) the value into this
node's `enum` list": create the list if absent, then append unless already
present. -/
def enumAppendNoDup (value : Json) (j : Json) : Except Unit Json :=
  match j with
  | .obj kvs =>
      match lookupJ "enum" kvs with
      | none => .ok (.obj (setKey kvs "enum" (.arr [value])))
      | some (.arr xs) =>
          .ok (.obj (setKey kvs "enum" (.arr (if value ∈ xs then xs else xs ++ [value]))))
      | some _ => .error ()
  | _ => .error ()

/-- Spec-side wording of the per-schema enrichment: inside the definition's
`properties`, append `"{group}/{version}"` to `apiVersion`'s enum and the
kind to `kind`'s enum. -/
def enrichDefinitionSpec (s : Schema) : Except Unit Json :=
  match s.definition with
  | .obj defKvs => do
      let defKvs' ← modifyAtKey defKvs "properties" (fun props =>
        match props with
        | .obj propsKvs => do
            let propsKvs' ← modifyAtKey propsKvs "apiVersion"
                (enumAppendNoDup (.str (s.group ++ "/" ++ s.version)))
            let propsKvs'' ← modifyAtKey propsKvs' "kind"
                (enumAppendNoDup (.str s.kind))
            .ok (.obj propsKvs'')
        | _ => .error ())
      .ok (.obj defKvs')
  | _ => .error ()

/-- Spec-side wording of the definitions map: process the schemas in order,
keying each enriched definition by `"{group}.{version}.{kind}"` with
dict-assignment semantics. -/
def buildDefinitionsSpecAux : List Schema → List (String × Json) →
    Except Unit (List (String × Json))
  | [], acc => .ok acc
  | s :: rest, acc => do
      let d ← enrichDefinitionSpec s
      buildDefinitionsSpecAux rest (setKey acc (defsKey s) d)

/-- Spec-side `_definitions.json` document. -/
def definitionsFileJsonSpec (schemas : List Schema) : Except Unit Json := do
  .ok (.obj [("definitions", .obj (← buildDefinitionsSpecAux schemas []))])

theorem enumAppendNoDup_eq (kvs : List (String × Json)) (value : Json) :
    enumAppendNoDup value (.obj kvs) =
      (append_no_duplicates kvs "enum" value).map (fun l => Json.obj l) := by
  rw [enumAppendNoDup, append_no_duplicates]
  cases he : lookupJ "enum" kvs with
  | none => simp [Except.map]
  | some v =>
      cases v with
      | arr xs =>
          by_cases hv : value ∈ xs
          · simp [hv, setKey_lookup_eq kvs "enum" (.arr xs) he, Except.map]
          · simp [hv, Except.map]
      | null => simp [Except.map]
      | bool b => simp [Except.map]
      | num n => simp [Except.map]
      | str t => simp [Except.map]
      | obj l => simp [Except.map]

theorem enrichDefinition_eq_spec (s : Schema) :
    enrichDefinition s = enrichDefinitionSpec s := by
  rw [enrichDefinition, enrichDefinitionSpec]
  cases hdef : s.definition with
  | obj defKvs =>
      simp only [getObjE, Bind.bind, Except.bind]
      cases hp : lookupJ "properties" defKvs with
      | none => simp [modifyAtKey, getItemE, hp, Bind.bind, Except.bind]
      | some props =>
          cases props with
          | obj propsKvs =>
              simp only [modifyAtKey, getItemE, hp, Bind.bind, Except.bind]
              cases ha : lookupJ "apiVersion" propsKvs with
              | none => simp [ha, Bind.bind, Except.bind]
              | some apiv =>
                  cases apiv with
                  | obj apivKvs =>
                      simp only [ha, Bind.bind, Except.bind, enumAppendNoDup_eq]
                      cases he : append_no_duplicates apivKvs "enum"
                          (.str (s.group ++ "/" ++ s.version)) with
                      | error e => cases e; simp [he, Except.map]
                      | ok apiv' =>
                          simp only [he, Except.map, Bind.bind, Except.bind]
                          have hk : lookupJ "kind"
                              (setKey propsKvs "apiVersion" (.obj apiv')) =
                              lookupJ "kind" propsKvs :=
                            lookupJ_setKey_ne _ _ _ _ (by decide)
                          cases hkk : lookupJ "kind" propsKvs with
                          | none => simp [hk, hkk, Bind.bind, Except.bind]
                          | some kindv =>
                              cases kindv with
                              | obj kindKvs =>
                                  simp only [hk, hkk, Bind.bind, Except.bind,
                                             enumAppendNoDup_eq]
                                  cases hke : append_no_duplicates kindKvs "enum"
                                      (.str s.kind) with
                                  | error e => cases e; simp [hke, Except.map]
                                  | ok kindv' => simp [hke, Except.map]
                              | null => simp [hk, hkk, enumAppendNoDup, Bind.bind, Except.bind]
                              | bool b => simp [hk, hkk, enumAppendNoDup, Bind.bind, Except.bind]
                              | num n => simp [hk, hkk, enumAppendNoDup, Bind.bind, Except.bind]
                              | str t => simp [hk, hkk, enumAppendNoDup, Bind.bind, Except.bind]
                              | arr xs => simp [hk, hkk, enumAppendNoDup, Bind.bind, Except.bind]
                  | null => simp [ha, enumAppendNoDup, Bind.bind, Except.bind]
                  | bool b => simp [ha, enumAppendNoDup, Bind.bind, Except.bind]
                  | num n => simp [ha, enumAppendNoDup, Bind.bind, Except.bind]
                  | str t => simp [ha, enumAppendNoDup, Bind.bind, Except.bind]
                  | arr xs => simp [ha, enumAppendNoDup, Bind.bind, Except.bind]
          | null => simp [modifyAtKey, getItemE, hp, Bind.bind, Except.bind]
          | bool b => simp [modifyAtKey, getItemE, hp, Bind.bind, Except.bind]
          | num n => simp [modifyAtKey, getItemE, hp, Bind.bind, Except.bind]
          | str t => simp [modifyAtKey, getItemE, hp, Bind.bind, Except.bind]
          | arr xs => simp [modifyAtKey, getItemE, hp, Bind.bind, Except.bind]
  | null => rfl
  | bool b => rfl
  | num n => rfl
  | str t => rfl
  | arr xs => rfl

theorem buildDefinitions_eq_specAux : ∀ (schemas : List Schema)
    (acc : List (String × Json)),
    schemas.foldlM
      (fun defs s => do .ok (setKey defs (defsKey s) (← enrichDefinition s))) acc =
      buildDefinitionsSpecAux schemas acc
  | [], acc => rfl
  | s :: rest, acc => by
      rw [List.foldlM_cons, buildDefinitionsSpecAux, ← enrichDefinition_eq_spec s]
      cases hd : enrichDefinition s with
      | error e => cases e; simp [hd, Bind.bind, Except.bind]
      | ok d =>
          simp only [hd, Bind.bind, Except.bind]
          exact buildDefinitions_eq_specAux rest (setKey acc (defsKey s) d)

/-- C8: the `_definitions.json` document is built exactly as the spec
describes — for each extracted schema in order, `"{group}/{version}"` is
appended without duplication to that schema's `properties.apiVersion.enum`
and the kind to `properties.kind.enum`, and the full enriched definition is
keyed by `"{group}.{version}.{kind}"` inside a top-level `definitions`
map. -/
theorem c8_definitions_file_spec :
    ∀ schemas : List Schema,
      definitionsFileJson schemas = definitionsFileJsonSpec schemas := by
  intro schemas
  rw [definitionsFileJson, definitionsFileJsonSpec, buildDefinitions,
      buildDefinitions_eq_specAux]

/-! ## Claim C10: the definitions step's implicit shape precondition -/

/-- The shape the definitions-building loop needs from a schema definition:
a map with a map-valued `properties` entry whose `apiVersion` and `kind`
entries are maps. -/
def defsShapeOk (j : Json) : Bool :=
  match j with
  | .obj kvs =>
      match lookupJ "properties" kvs with
      | some (.obj p) =>
          (match lookupJ "apiVersion" p with
           | some (.obj _) => true
           | _ => false) &&
          (match lookupJ "kind" p with
           | some (.obj _) => true
           | _ => false)
      | _ => false
  | _ => false

theorem enrichDefinition_error_of_shape (s : Schema)
    (h : defsShapeOk s.definition = false) : enrichDefinition s = .error () := by
  rw [enrichDefinition]
  cases hdef : s.definition with
  | obj defKvs =>
      rw [hdef] at h
      simp only [getObjE, Bind.bind, Except.bind]
      cases hp : lookupJ "properties" defKvs with
      | none => simp [getItemE, hp]
      | some props =>
          cases props with
          | obj propsKvs =>
              simp only [getItemE, hp, getObjE]
              cases ha : lookupJ "apiVersion" propsKvs with
              | none => simp [ha]
              | some apiv =>
                  cases apiv with
                  | obj apivKvs =>
                      simp only [ha, getObjE]
                      cases he : append_no_duplicates apivKvs "enum"
                          (.str (s.group ++ "/" ++ s.version)) with
                      | error e => cases e; simp [he]
                      | ok apiv' =>
                          simp only [he]
                          cases hkk : lookupJ "kind" propsKvs with
                          | none => simp [hkk]
                          | some kindv =>
                              cases kindv with
                              | obj kindKvs =>
                                  exfalso
                                  simp [defsShapeOk, hp, ha, hkk] at h
                              | null => simp [hkk]
                              | bool b => simp [hkk]
                              | num n => simp [hkk]
                              | str t => simp [hkk]
                              | arr xs => simp [hkk]
                  | null => simp [ha]
                  | bool b => simp [ha]
                  | num n => simp [ha]
                  | str t => simp [ha]
                  | arr xs => simp [ha]
          | null => simp [getItemE, hp, getObjE]
          | bool b => simp [getItemE, hp, getObjE]
          | num n => simp [getItemE, hp, getObjE]
          | str t => simp [getItemE, hp, getObjE]
          | arr xs => simp [getItemE, hp, getObjE]
  | null => rfl
  | bool b => rfl
  | num n => rfl
  | str t => rfl
  | arr xs => rfl

theorem buildDefinitions_error_of_bad : ∀ (schemas : List Schema)
    (acc : List (String × Json)) (s : Schema), s ∈ schemas →
    defsShapeOk s.definition = false →
    schemas.foldlM
      (fun defs s => do .ok (setKey defs (defsKey s) (← enrichDefinition s))) acc =
      .error ()
  | [], _, _, hmem, _ => by cases hmem
  | s₀ :: rest, acc, s, hmem, hbad => by
      rw [List.foldlM_cons]
      rcases List.mem_cons.mp hmem with heq | hrest
      · subst heq
        simp [enrichDefinition_error_of_shape s hbad, Bind.bind, Except.bind]
      · cases hd : enrichDefinition s₀ with
        | error e => cases e; simp [hd, Bind.bind, Except.bind]
        | ok d =>
            simp only [hd, Bind.bind, Except.bind]
            exact buildDefinitions_error_of_bad rest _ s hrest hbad

/-- C10: if any extracted schema's definition lacks the map-valued
`properties`/`apiVersion`/`kind` shape, the definitions step fails with an
unhandled lookup error while the per-schema files (written earlier) are
already produced, leaving the output partial. -/
theorem c10_definitions_shape_precondition :
    ∀ (tpl : List FilePart) (schemas : List Schema) (s : Schema),
      s ∈ schemas → defsShapeOk s.definition = false →
      (runOutputs tpl schemas).2 = .error () ∧
      (runOutputs tpl schemas).1 = perSchemaFiles tpl schemas := by
  intro tpl schemas s hmem hbad
  refine ⟨?_, rfl⟩
  have hb : buildDefinitions schemas = .error () :=
    buildDefinitions_error_of_bad schemas [] s hmem hbad
  simp [runOutputs, definitionsFileJson, hb, Bind.bind, Except.bind]

/-- Witness for C10 at a concrete input: one schema whose definition lacks
`properties`; the definitions step errors while the per-schema file list is
still produced in full. -/
theorem c10_definitions_shape_precondition_witness :
    (runOutputs defaultFilenameFormat [⟨"Foo", "example.com", "v1", .obj []⟩]).2 = .error () ∧
    (runOutputs defaultFilenameFormat [⟨"Foo", "example.com", "v1", .obj []⟩]).1 =
      perSchemaFiles defaultFilenameFormat [⟨"Foo", "example.com", "v1", .obj []⟩] :=
  c10_definitions_shape_precondition defaultFilenameFormat
    [⟨"Foo", "example.com", "v1", .obj []⟩] ⟨"Foo", "example.com", "v1", .obj []⟩
    (by simp) (by decide)
